import Mathlib

/-!
Verification of the distributed group-normalization engine in
`src/patchvae/models/normalization.py` (PipeFusion/DistVAE).

The tensors are embedded shallowly: a worker's local shard is a total function
`batch → channel → row → col → ℚ` together with its height extent; machine reals
become exact rationals, and the square root is an arbitrary function parameter
`sqrtQ : ℚ → ℚ` (every statement that involves it holds for all choices, since
both sides of each comparison apply the same function to the same argument).
The collective `dist.all_gather` is the black-box primitive of the spec: every
worker receives the rank-ordered list of every worker's contribution, so a
per-worker quantity computed from the gathered list alone is rank-independent
by construction.
-/

/-- A worker's local tensor shard: its height extent (`x.shape[-2]`) and its
element data indexed by `(batch, channel, row, col)`. Rows `0 ≤ i < height`
are the ones the worker owns. -/
structure Shard where
  height : ℕ
  data : ℕ → ℕ → ℕ → ℕ → ℚ

def defaultShard : Shard := ⟨0, fun _ _ _ _ => 0⟩

/-- The collective reduction primitive (spec §6): every worker contributes one
value and every worker receives the full rank-ordered list of contributions. -/
def all_gather {α : Type} (ws : List Shard) (f : Shard → α) : List α := ws.map f

/-- `channels_per_group = x.shape[1] // self.num_groups` (source lines 75 and 152):
Python floor division on integers. -/
def channels_per_group (C G : ℕ) : ℕ := C / G

/-- `height = torch.tensor(height_list).sum()` after all-gathering each worker's
`x.shape[-2]` (PatchGroupNorm.forward lines 146-150): the global height is the sum
of all workers' local height extents. -/
def PatchGroupNorm.globalHeight (ws : List Shard) : ℕ :=
  (all_gather ws Shard.height).sum

/-- `nelements = channels_per_group * height * x.shape[-1]` (line 153). -/
def PatchGroupNorm.nelements (cpg H W : ℕ) : ℕ := cpg * H * W

/-- `partial_sum = x.sum_to_size(x.shape[0], self.num_groups, 1, 1, 1)` after
`x = x.view(B, G, -1, H, W)` (lines 155-156): the local sum of the elements of
group `g`, i.e. of channels `g * cpg + c` for `c < cpg`, over the worker's own
rows and the full width. -/
def PatchGroupNorm.part_sum (s : Shard) (cpg W : ℕ) (b g : ℕ) : ℚ :=
  ∑ c ∈ Finset.range cpg, ∑ i ∈ Finset.range s.height, ∑ j ∈ Finset.range W,
    s.data b (g * cpg + c) i j

/-- `group_sum = torch.stack(partial_sum_list, dim=0).sum(dim=0)` after
all-gathering the per-rank partial sums (lines 157-159). -/
def PatchGroupNorm.group_sum (ws : List Shard) (cpg W : ℕ) (b g : ℕ) : ℚ :=
  (all_gather ws (fun s => PatchGroupNorm.part_sum s cpg W b g)).sum

/-- `E = group_sum / nelements` (line 161): the round-1 global mean per
`(batch, group)`. -/
def PatchGroupNorm.E (ws : List Shard) (C G W : ℕ) (b g : ℕ) : ℚ :=
  PatchGroupNorm.group_sum ws (channels_per_group C G) W b g /
    ((PatchGroupNorm.nelements (channels_per_group C G)
        (PatchGroupNorm.globalHeight ws) W : ℕ) : ℚ)

/-- `partial_var_sum = ((x - E[:, :, None, None, None]) ** 2).sum_to_size(...)`
(line 164): the local sum of squared deviations from the value `Ev`
(instantiated with the round-1 global mean). -/
def PatchGroupNorm.part_var_sum (s : Shard) (cpg W : ℕ) (Ev : ℚ) (b g : ℕ) : ℚ :=
  ∑ c ∈ Finset.range cpg, ∑ i ∈ Finset.range s.height, ∑ j ∈ Finset.range W,
    (s.data b (g * cpg + c) i j - Ev) ^ 2

/-- `group_var_sum = torch.stack(partial_var_sum_list, dim=0).sum(dim=0)` and
`var = group_var_sum / nelements` (lines 165-169): the round-2 global variance
per `(batch, group)`, with deviations taken from the round-1 global mean. -/
def PatchGroupNorm.var (ws : List Shard) (C G W : ℕ) (b g : ℕ) : ℚ :=
  (all_gather ws (fun s =>
      PatchGroupNorm.part_var_sum s (channels_per_group C G) W
        (PatchGroupNorm.E ws C G W b g) b g)).sum /
    ((PatchGroupNorm.nelements (channels_per_group C G)
        (PatchGroupNorm.globalHeight ws) W : ℕ) : ℚ)

/-- `PatchGroupNorm.forward` (lines 145-174) for the worker holding shard `s`:
`x = (x - E) / torch.sqrt(var + self.eps)` in the grouped view (line 171),
viewed back to `(B, C, H, W)` where channel `c` belongs to group `c / cpg`
(line 172), then `x = x * self.weight[None, :, None, None] +
self.bias[None, :, None, None]` (line 173). -/
def PatchGroupNorm.forward (sqrtQ : ℚ → ℚ) (weight bias : ℕ → ℚ) (eps : ℚ)
    (ws : List Shard) (C G W : ℕ) (s : Shard) (b c i j : ℕ) : ℚ :=
  (s.data b c i j - PatchGroupNorm.E ws C G W b (c / channels_per_group C G)) /
      sqrtQ (PatchGroupNorm.var ws C G W b (c / channels_per_group C G) + eps) *
      weight c +
    bias c

/-- The grouped normalization of the local shard alone, before the affine or
conditioning step: `(x - E) / torch.sqrt(var + self.eps)` (line 171). -/
def PatchGroupNorm.normalized (sqrtQ : ℚ → ℚ) (eps : ℚ)
    (ws : List Shard) (C G W : ℕ) (s : Shard) (b c i j : ℕ) : ℚ :=
  (s.data b c i j - PatchGroupNorm.E ws C G W b (c / channels_per_group C G)) /
    sqrtQ (PatchGroupNorm.var ws C G W b (c / channels_per_group C G) + eps)

/-- `PatchAdaGroupNorm.forward` (lines 63-91) for the worker holding shard `s`,
with the conditioning parameters `scale`/`shift` (per batch and channel, spatially
broadcast) already produced by the Conditioning Projector. Its two reduction
rounds (lines 70-87) are the same all-gather-and-sum computation as
`PatchGroupNorm.forward`, reducing each group to a `[batch, groups]` array, and
the final steps are `x = (x - E) / torch.sqrt(var + self.eps)` (line 89) and
`x = x * (1 + scale) + shift` (line 90). Caveat: unlike `PatchGroupNorm.forward`,
the source never takes the 5-D grouped view, so its `x.sum_to_size(x.shape[0],
self.num_groups)` at line 77 carries torch's expandability precondition on the
raw 4-D shape and raises on typical shapes; that check is modelled separately
by `sum_to_size_ok` / `PatchAdaGroupNorm.forwardChecked` below, while this
definition embeds the per-(batch, group) reduction the two-round scheme is
meant to perform there — the reading the spec gives for these lines — which is
all the applicator-identity and eps-placement statements rely on. -/
def PatchAdaGroupNorm.forward (sqrtQ : ℚ → ℚ) (scale shift : ℕ → ℕ → ℚ) (eps : ℚ)
    (ws : List Shard) (C G W : ℕ) (s : Shard) (b c i j : ℕ) : ℚ :=
  (s.data b c i j - PatchGroupNorm.E ws C G W b (c / channels_per_group C G)) /
      sqrtQ (PatchGroupNorm.var ws C G W b (c / channels_per_group C G) + eps) *
      (1 + scale b c) +
    shift b c

/-- The unsharded per-group mean of a full tensor `X` of height `H`
(the single-worker baseline: the semantics of `F.group_norm` used by
`AdaGroupNorm.forward` line 44, stated from the spec's words): the average of
the elements of group `g` over all spatial positions. -/
def Unsharded.mean (X : ℕ → ℕ → ℕ → ℕ → ℚ) (C G H W : ℕ) (b g : ℕ) : ℚ :=
  (∑ c ∈ Finset.range (channels_per_group C G), ∑ i ∈ Finset.range H,
      ∑ j ∈ Finset.range W, X b (g * channels_per_group C G + c) i j) /
    ((channels_per_group C G * H * W : ℕ) : ℚ)

/-- The unsharded per-group biased (population) variance of a full tensor:
sum of squared deviations from the group mean, divided by the total element
count of the group (not count − 1). -/
def Unsharded.variance (X : ℕ → ℕ → ℕ → ℕ → ℚ) (C G H W : ℕ) (b g : ℕ) : ℚ :=
  (∑ c ∈ Finset.range (channels_per_group C G), ∑ i ∈ Finset.range H,
      ∑ j ∈ Finset.range W,
        (X b (g * channels_per_group C G + c) i j - Unsharded.mean X C G H W b g) ^ 2) /
    ((channels_per_group C G * H * W : ℕ) : ℚ)

/-- The unsharded group normalization `(x - E) / sqrt(var + eps)` of the full
tensor (torch `F.group_norm` without affine parameters). -/
def Unsharded.groupNorm (sqrtQ : ℚ → ℚ) (eps : ℚ) (X : ℕ → ℕ → ℕ → ℕ → ℚ)
    (C G H W : ℕ) (b c i j : ℕ) : ℚ :=
  (X b c i j - Unsharded.mean X C G H W b (c / channels_per_group C G)) /
    sqrtQ (Unsharded.variance X C G H W b (c / channels_per_group C G) + eps)

/-- The unsharded analogue of `PatchGroupNorm.forward`: group-normalize the full
tensor, then apply the per-channel affine parameters. -/
def Unsharded.forward (sqrtQ : ℚ → ℚ) (weight bias : ℕ → ℚ) (eps : ℚ)
    (X : ℕ → ℕ → ℕ → ℕ → ℚ) (C G H W : ℕ) (b c i j : ℕ) : ℚ :=
  Unsharded.groupNorm sqrtQ eps X C G H W b c i j * weight c + bias c

/-- `AdaGroupNorm.forward` (lines 37-46): `x = F.group_norm(x, self.num_groups,
eps=self.eps)` on the full (unsharded) tensor, then `x = x * (1 + scale) + shift`
with the conditioning parameters. -/
def AdaGroupNorm.forward (sqrtQ : ℚ → ℚ) (scale shift : ℕ → ℕ → ℚ) (eps : ℚ)
    (X : ℕ → ℕ → ℕ → ℕ → ℚ) (C G H W : ℕ) (b c i j : ℕ) : ℚ :=
  Unsharded.groupNorm sqrtQ eps X C G H W b c i j * (1 + scale b c) + shift b c

/-- Reassembly of the full tensor from the rank-ordered list of contiguous,
disjoint height shards: global row `i` belongs to the first shard whose height
range contains it. -/
def reassemble : List Shard → ℕ → ℕ → ℕ → ℕ → ℚ
  | [], _, _, _, _ => 0
  | s :: rest, b, c, i, j =>
    if i < s.height then s.data b c i j else reassemble rest b c (i - s.height) j

/-- The global row offset at which worker `r`'s shard starts: the sum of the
height extents of the workers before it in rank order. -/
def offsetBefore (ws : List Shard) (r : ℕ) : ℕ :=
  ((ws.take r).map Shard.height).sum

lemma globalHeight_nil : PatchGroupNorm.globalHeight [] = 0 := rfl

lemma globalHeight_cons (s : Shard) (rest : List Shard) :
    PatchGroupNorm.globalHeight (s :: rest) =
      s.height + PatchGroupNorm.globalHeight rest := by
  simp [PatchGroupNorm.globalHeight, all_gather]

/-- Splitting a spatial sum over the reassembled tensor along shard boundaries:
summing any pointwise function of the reassembled elements over all global rows
equals adding up the corresponding local sums shard by shard. -/
lemma sum_reassemble (φ : ℚ → ℚ) (ws : List Shard) (W b ch : ℕ) :
    ∑ i ∈ Finset.range (PatchGroupNorm.globalHeight ws), ∑ j ∈ Finset.range W,
        φ (reassemble ws b ch i j)
      = (ws.map (fun s => ∑ i ∈ Finset.range s.height, ∑ j ∈ Finset.range W,
          φ (s.data b ch i j))).sum := by
  induction ws with
  | nil => simp [globalHeight_nil]
  | cons s rest ih =>
    rw [globalHeight_cons, Finset.sum_range_add]
    have h1 : ∑ i ∈ Finset.range s.height, ∑ j ∈ Finset.range W,
        φ (reassemble (s :: rest) b ch i j)
        = ∑ i ∈ Finset.range s.height, ∑ j ∈ Finset.range W, φ (s.data b ch i j) := by
      refine Finset.sum_congr rfl fun i hi => ?_
      have hih : i < s.height := Finset.mem_range.mp hi
      simp [reassemble, hih]
    have h2 : ∑ k ∈ Finset.range (PatchGroupNorm.globalHeight rest),
        ∑ j ∈ Finset.range W, φ (reassemble (s :: rest) b ch (s.height + k) j)
        = ∑ k ∈ Finset.range (PatchGroupNorm.globalHeight rest),
            ∑ j ∈ Finset.range W, φ (reassemble rest b ch k j) := by
      refine Finset.sum_congr rfl fun k _ => ?_
      refine Finset.sum_congr rfl fun j _ => ?_
      have hnot : ¬ s.height + k < s.height := by omega
      simp [reassemble, hnot]
    rw [h1, h2, ih, List.map_cons, List.sum_cons]

/-- A `Finset.range` sum of list sums exchanges with the list sum. -/
lemma finsetSum_listSum_comm {M : Type} [AddCommMonoid M] (l : List Shard) (n : ℕ)
    (A : Shard → ℕ → M) :
    ∑ c ∈ Finset.range n, (l.map (fun s => A s c)).sum
      = (l.map (fun s => ∑ c ∈ Finset.range n, A s c)).sum := by
  induction l with
  | nil => simp
  | cons s rest ih => simp [Finset.sum_add_distrib, ih]

/-- A list sum of per-shard values written as a rank-indexed `Finset.range` sum. -/
lemma listSum_eq_sum_range {M : Type} [AddCommMonoid M] (f : Shard → M)
    (l : List Shard) :
    (l.map f).sum = ∑ r ∈ Finset.range l.length, f (l.getD r defaultShard) := by
  induction l with
  | nil => simp
  | cons s rest ih =>
    rw [List.map_cons, List.sum_cons, List.length_cons, Finset.sum_range_succ']
    simp only [List.getD_cons_succ, List.getD_cons_zero]
    rw [← ih, add_comm]

/-- Worker `r`'s shard occupies the global rows `offsetBefore ws r + i` for
`i < height`: reassembling at those rows returns the shard's own data. -/
lemma reassemble_offset (ws : List Shard) (r : ℕ) (b c i j : ℕ)
    (hr : r < ws.length) (hi : i < (ws.getD r defaultShard).height) :
    reassemble ws b c (offsetBefore ws r + i) j
      = (ws.getD r defaultShard).data b c i j := by
  induction ws generalizing r with
  | nil => simp at hr
  | cons s rest ih =>
    cases r with
    | zero =>
      simp only [List.getD_cons_zero] at hi ⊢
      simp [offsetBefore, reassemble, hi]
    | succ r' =>
      simp only [List.getD_cons_succ] at hi ⊢
      have hr' : r' < rest.length := by simpa using hr
      have hoff : offsetBefore (s :: rest) (r' + 1)
          = s.height + offsetBefore rest r' := by
        simp [offsetBefore, List.take_succ_cons]
      have hnot : ¬ s.height + offsetBefore rest r' + i < s.height := by omega
      rw [hoff, add_assoc]
      have hnot' : ¬ s.height + (offsetBefore rest r' + i) < s.height := by omega
      simp only [reassemble, hnot', if_false]
      rw [Nat.add_sub_cancel_left]
      exact ih r' hr' hi

/-- The round-1 gathered sum of per-rank partial sums equals the plain group
sum over the reassembled full tensor. -/
lemma group_sum_eq_full (ws : List Shard) (cpg W b g : ℕ) :
    PatchGroupNorm.group_sum ws cpg W b g
      = ∑ c ∈ Finset.range cpg, ∑ i ∈ Finset.range (PatchGroupNorm.globalHeight ws),
          ∑ j ∈ Finset.range W, reassemble ws b (g * cpg + c) i j := by
  have h : ∀ c : ℕ, ∑ i ∈ Finset.range (PatchGroupNorm.globalHeight ws),
      ∑ j ∈ Finset.range W, reassemble ws b (g * cpg + c) i j
      = (ws.map (fun s => ∑ i ∈ Finset.range s.height, ∑ j ∈ Finset.range W,
          s.data b (g * cpg + c) i j)).sum := by
    intro c
    simpa using sum_reassemble (fun q => q) ws W b (g * cpg + c)
  calc PatchGroupNorm.group_sum ws cpg W b g
      = (ws.map (fun s => ∑ c ∈ Finset.range cpg, ∑ i ∈ Finset.range s.height,
          ∑ j ∈ Finset.range W, s.data b (g * cpg + c) i j)).sum := by
        simp only [PatchGroupNorm.group_sum, all_gather, PatchGroupNorm.part_sum]
    _ = ∑ c ∈ Finset.range cpg, (ws.map (fun s => ∑ i ∈ Finset.range s.height,
          ∑ j ∈ Finset.range W, s.data b (g * cpg + c) i j)).sum :=
        (finsetSum_listSum_comm ws cpg _).symm
    _ = ∑ c ∈ Finset.range cpg, ∑ i ∈ Finset.range (PatchGroupNorm.globalHeight ws),
          ∑ j ∈ Finset.range W, reassemble ws b (g * cpg + c) i j :=
        Finset.sum_congr rfl fun c _ => (h c).symm

/-- The round-2 gathered sum of per-rank squared-deviation sums (all deviations
taken from one fixed value `Ev`) equals the plain sum of squared deviations
over the reassembled full tensor. -/
lemma group_var_sum_eq_full (ws : List Shard) (cpg W b g : ℕ) (Ev : ℚ) :
    (ws.map (fun s => PatchGroupNorm.part_var_sum s cpg W Ev b g)).sum
      = ∑ c ∈ Finset.range cpg, ∑ i ∈ Finset.range (PatchGroupNorm.globalHeight ws),
          ∑ j ∈ Finset.range W, (reassemble ws b (g * cpg + c) i j - Ev) ^ 2 := by
  have h : ∀ c : ℕ, ∑ i ∈ Finset.range (PatchGroupNorm.globalHeight ws),
      ∑ j ∈ Finset.range W, (reassemble ws b (g * cpg + c) i j - Ev) ^ 2
      = (ws.map (fun s => ∑ i ∈ Finset.range s.height, ∑ j ∈ Finset.range W,
          (s.data b (g * cpg + c) i j - Ev) ^ 2)).sum := by
    intro c
    simpa using sum_reassemble (fun q => (q - Ev) ^ 2) ws W b (g * cpg + c)
  calc (ws.map (fun s => PatchGroupNorm.part_var_sum s cpg W Ev b g)).sum
      = (ws.map (fun s => ∑ c ∈ Finset.range cpg, ∑ i ∈ Finset.range s.height,
          ∑ j ∈ Finset.range W, (s.data b (g * cpg + c) i j - Ev) ^ 2)).sum := by
        simp only [PatchGroupNorm.part_var_sum]
    _ = ∑ c ∈ Finset.range cpg, (ws.map (fun s => ∑ i ∈ Finset.range s.height,
          ∑ j ∈ Finset.range W, (s.data b (g * cpg + c) i j - Ev) ^ 2)).sum :=
        (finsetSum_listSum_comm ws cpg _).symm
    _ = ∑ c ∈ Finset.range cpg, ∑ i ∈ Finset.range (PatchGroupNorm.globalHeight ws),
          ∑ j ∈ Finset.range W, (reassemble ws b (g * cpg + c) i j - Ev) ^ 2 :=
        Finset.sum_congr rfl fun c _ => (h c).symm

/-- The distributed round-1 mean coincides exactly with the unsharded group mean
of the reassembled full tensor. -/
lemma E_eq_unsharded_mean (ws : List Shard) (C G W b g : ℕ) :
    PatchGroupNorm.E ws C G W b g
      = Unsharded.mean (reassemble ws) C G (PatchGroupNorm.globalHeight ws) W b g := by
  unfold PatchGroupNorm.E Unsharded.mean PatchGroupNorm.nelements
  rw [group_sum_eq_full]

/-- The distributed round-2 variance coincides exactly with the unsharded biased
group variance of the reassembled full tensor. -/
lemma var_eq_unsharded_variance (ws : List Shard) (C G W b g : ℕ) :
    PatchGroupNorm.var ws C G W b g
      = Unsharded.variance (reassemble ws) C G (PatchGroupNorm.globalHeight ws) W b g := by
  unfold PatchGroupNorm.var Unsharded.variance PatchGroupNorm.nelements
  rw [show all_gather ws (fun s =>
      PatchGroupNorm.part_var_sum s (channels_per_group C G) W
        (PatchGroupNorm.E ws C G W b g) b g)
      = ws.map (fun s =>
        PatchGroupNorm.part_var_sum s (channels_per_group C G) W
          (PatchGroupNorm.E ws C G W b g) b g) from rfl]
  rw [group_var_sum_eq_full, E_eq_unsharded_mean]

/-- Worker A of the spec's concrete scenario: rows `[0, 2)` of a 4×4
single-channel image, all elements `1.0`. -/
def shardA : Shard := ⟨2, fun _ _ _ _ => 1⟩

/-- Worker B of the spec's concrete scenario: rows `[2, 4)`, all elements `3.0`. -/
def shardB : Shard := ⟨2, fun _ _ _ _ => 3⟩

/-- The two-worker world of the spec's concrete scenario, in rank order. -/
def scenarioShards : List Shard := [shardA, shardB]

/-- C1: for every global tensor split into contiguous, disjoint height shards
across the workers, the per-(batch, group) mean and variance computed by the
distributed two-round algorithm (`PatchGroupNorm.forward`) equal the mean and
variance computed by the single-worker unsharded group-norm algorithm on the
reassembled full tensor (exactly, in the idealized rational arithmetic that
stands in for "within floating-point tolerance"); consequently worker `r`'s
normalized local output at local row `i` equals the unsharded normalized output
at global row `offsetBefore ws r + i`. -/
theorem distributed_refines_unsharded (sqrtQ : ℚ → ℚ) (weight bias : ℕ → ℚ)
    (eps : ℚ) (ws : List Shard) (C G W b g r c i j : ℕ)
    (hr : r < ws.length) (hi : i < (ws.getD r defaultShard).height) :
    PatchGroupNorm.E ws C G W b g
        = Unsharded.mean (reassemble ws) C G (PatchGroupNorm.globalHeight ws) W b g
      ∧ PatchGroupNorm.var ws C G W b g
        = Unsharded.variance (reassemble ws) C G (PatchGroupNorm.globalHeight ws) W b g
      ∧ PatchGroupNorm.forward sqrtQ weight bias eps ws C G W
            (ws.getD r defaultShard) b c i j
        = Unsharded.forward sqrtQ weight bias eps (reassemble ws) C G
            (PatchGroupNorm.globalHeight ws) W b c (offsetBefore ws r + i) j := by
  refine ⟨E_eq_unsharded_mean ws C G W b g, var_eq_unsharded_variance ws C G W b g, ?_⟩
  unfold PatchGroupNorm.forward Unsharded.forward Unsharded.groupNorm
  rw [reassemble_offset ws r b c i j hr hi, ← E_eq_unsharded_mean,
    ← var_eq_unsharded_variance]

/-- Witness for C1 at the concrete two-worker scenario, worker `r = 1`,
local element `(0, 0, 0, 0)`. -/
theorem distributed_refines_unsharded_witness :
    PatchGroupNorm.E scenarioShards 1 1 4 0 0
        = Unsharded.mean (reassemble scenarioShards) 1 1
            (PatchGroupNorm.globalHeight scenarioShards) 4 0 0
      ∧ PatchGroupNorm.var scenarioShards 1 1 4 0 0
        = Unsharded.variance (reassemble scenarioShards) 1 1
            (PatchGroupNorm.globalHeight scenarioShards) 4 0 0
      ∧ PatchGroupNorm.forward (fun q => q) (fun _ => 1) (fun _ => 0) (1 / 100000)
            scenarioShards 1 1 4 (scenarioShards.getD 1 defaultShard) 0 0 0 0
        = Unsharded.forward (fun q => q) (fun _ => 1) (fun _ => 0) (1 / 100000)
            (reassemble scenarioShards) 1 1
            (PatchGroupNorm.globalHeight scenarioShards) 4 0 0
            (offsetBefore scenarioShards 1 + 0) 0 :=
  distributed_refines_unsharded (fun q => q) (fun _ => 1) (fun _ => 0) (1 / 100000)
    scenarioShards 1 1 4 0 0 1 0 0 0 (by decide) (by decide)

/-- C2: in round 1 every worker obtains the global height as the sum of all
workers' all-gathered local height extents (the computation is a function of the
gathered rank-ordered list alone, hence identical on every worker), and the
group mean `E` equals the sum over all ranks of the per-rank partial sums
divided by `channels_per_group * global_height * width`. -/
theorem round1_height_and_mean (ws : List Shard) (C G W b g : ℕ) :
    PatchGroupNorm.globalHeight ws
        = ∑ r ∈ Finset.range ws.length, (ws.getD r defaultShard).height
      ∧ PatchGroupNorm.E ws C G W b g
        = (∑ r ∈ Finset.range ws.length,
            PatchGroupNorm.part_sum (ws.getD r defaultShard)
              (channels_per_group C G) W b g)
          / ((PatchGroupNorm.nelements (channels_per_group C G)
              (PatchGroupNorm.globalHeight ws) W : ℕ) : ℚ) := by
  constructor
  · simpa [PatchGroupNorm.globalHeight, all_gather] using
      listSum_eq_sum_range Shard.height ws
  · unfold PatchGroupNorm.E PatchGroupNorm.group_sum all_gather
    rw [listSum_eq_sum_range]

/-- C3: in round 2 each worker's contribution is its local sum of squared
deviations from the global round-1 mean `E` (not any local mean), the global
variance is the all-gathered sum of those contributions divided by the total
element count `channels_per_group * global_height * width`, and this is the
biased (population) estimator: it coincides with the population variance of the
reassembled full tensor. -/
theorem round2_variance_biased (ws : List Shard) (C G W b g : ℕ) :
    PatchGroupNorm.var ws C G W b g
        = (∑ r ∈ Finset.range ws.length,
            PatchGroupNorm.part_var_sum (ws.getD r defaultShard)
              (channels_per_group C G) W (PatchGroupNorm.E ws C G W b g) b g)
          / ((PatchGroupNorm.nelements (channels_per_group C G)
              (PatchGroupNorm.globalHeight ws) W : ℕ) : ℚ)
      ∧ PatchGroupNorm.var ws C G W b g
        = Unsharded.variance (reassemble ws) C G
            (PatchGroupNorm.globalHeight ws) W b g := by
  constructor
  · unfold PatchGroupNorm.var all_gather
    rw [listSum_eq_sum_range]
  · exact var_eq_unsharded_variance ws C G W b g

/-- C4: the Normalization Applicator is purely elementwise — at every index the
affine variant produces `normalized * weight + bias` and the conditioning
variants produce `normalized * (1 + scale) + shift`; since the output is defined
pointwise at exactly the indices of the input shard, its shape is that of the
input. -/
theorem normalization_applicator (sqrtQ : ℚ → ℚ) (weight bias : ℕ → ℚ)
    (scale shift : ℕ → ℕ → ℚ) (eps : ℚ) (ws : List Shard)
    (X : ℕ → ℕ → ℕ → ℕ → ℚ) (C G H W : ℕ) (s : Shard) (b c i j : ℕ) :
    PatchGroupNorm.forward sqrtQ weight bias eps ws C G W s b c i j
        = PatchGroupNorm.normalized sqrtQ eps ws C G W s b c i j * weight c + bias c
      ∧ PatchAdaGroupNorm.forward sqrtQ scale shift eps ws C G W s b c i j
        = PatchGroupNorm.normalized sqrtQ eps ws C G W s b c i j * (1 + scale b c)
            + shift b c
      ∧ AdaGroupNorm.forward sqrtQ scale shift eps X C G H W b c i j
        = Unsharded.groupNorm sqrtQ eps X C G H W b c i j * (1 + scale b c)
            + shift b c :=
  ⟨rfl, rfl, rfl⟩

lemma scenario_E (b g : ℕ) : PatchGroupNorm.E scenarioShards 1 1 4 b g = 2 := by
  simp [PatchGroupNorm.E, PatchGroupNorm.group_sum, PatchGroupNorm.part_sum,
    PatchGroupNorm.globalHeight, PatchGroupNorm.nelements, all_gather,
    channels_per_group, scenarioShards, shardA, shardB, Finset.sum_range_succ]
  norm_num

lemma scenario_var (b g : ℕ) : PatchGroupNorm.var scenarioShards 1 1 4 b g = 1 := by
  unfold PatchGroupNorm.var
  simp only [scenario_E]
  simp [PatchGroupNorm.part_var_sum, PatchGroupNorm.globalHeight,
    PatchGroupNorm.nelements, all_gather, channels_per_group, scenarioShards,
    shardA, shardB, Finset.sum_range_succ]
  norm_num

/-- C5: in the concrete scenario (2 workers, 1 group, eps = 1e-5, worker A
holding rows [0,2) of a 4×4 single-channel image filled with 1.0 and worker B
holding rows [2,4) filled with 3.0, default affine parameters weight = 1,
bias = 0), the distributed algorithm computes global mean 2 and global
population variance 1, and each worker's local output is
`(local_value - 2) / sqrt(1 + 1e-5)` elementwise. -/
theorem scenario_two_workers (sqrtQ : ℚ → ℚ) (b c i j b' c' i' j' : ℕ) :
    PatchGroupNorm.E scenarioShards 1 1 4 0 0 = 2
      ∧ PatchGroupNorm.var scenarioShards 1 1 4 0 0 = 1
      ∧ PatchGroupNorm.forward sqrtQ (fun _ => 1) (fun _ => 0) (1 / 100000)
            scenarioShards 1 1 4 shardA b c i j
          = (1 - 2) / sqrtQ (1 + 1 / 100000)
      ∧ PatchGroupNorm.forward sqrtQ (fun _ => 1) (fun _ => 0) (1 / 100000)
            scenarioShards 1 1 4 shardB b' c' i' j'
          = (3 - 2) / sqrtQ (1 + 1 / 100000) := by
  refine ⟨scenario_E 0 0, scenario_var 0 0, ?_, ?_⟩
  · simp [PatchGroupNorm.forward, scenario_E, scenario_var, shardA]
  · simp [PatchGroupNorm.forward, scenario_E, scenario_var, shardB]

/-- Two shards agree outside group `g`: same height extent, and identical data
at every element whose channel lies outside group `g`. -/
def AgreeOutside (cpg g : ℕ) (s s' : Shard) : Prop :=
  s.height = s'.height ∧
    ∀ b c i j, c / cpg ≠ g → s.data b c i j = s'.data b c i j

lemma forall2_map_sum {M : Type} [AddCommMonoid M] {P : Shard → Shard → Prop}
    (f f' : Shard → M) (hff : ∀ s s', P s s' → f s = f' s')
    {ws ws' : List Shard} (h : List.Forall₂ P ws ws') :
    (ws.map f).sum = (ws'.map f').sum := by
  induction h with
  | nil => rfl
  | cons hp _ ih => simp [hff _ _ hp, ih]

/-- C6: group isolation (two-run noninterference) — if two runs are fed shard
lists that differ only in elements whose channels belong to group `g`, then for
every other group `g' ≠ g` the distributed mean and variance are identical in
the two runs. -/
theorem group_isolation (C G W g : ℕ) (hcpg : 0 < channels_per_group C G)
    (ws ws' : List Shard)
    (h : List.Forall₂ (AgreeOutside (channels_per_group C G) g) ws ws')
    (b g' : ℕ) (hg : g' ≠ g) :
    PatchGroupNorm.E ws C G W b g' = PatchGroupNorm.E ws' C G W b g'
      ∧ PatchGroupNorm.var ws C G W b g' = PatchGroupNorm.var ws' C G W b g' := by
  have hdiv : ∀ c, c < channels_per_group C G →
      (g' * channels_per_group C G + c) / channels_per_group C G = g' := by
    intro c hc
    rw [mul_comm, Nat.mul_add_div hcpg, Nat.div_eq_of_lt hc, add_zero]
  have hagree : ∀ s s', AgreeOutside (channels_per_group C G) g s s' →
      ∀ φ : ℚ → ℚ,
        (∑ c ∈ Finset.range (channels_per_group C G), ∑ i ∈ Finset.range s.height,
          ∑ j ∈ Finset.range W, φ (s.data b (g' * channels_per_group C G + c) i j))
        = ∑ c ∈ Finset.range (channels_per_group C G),
            ∑ i ∈ Finset.range s'.height, ∑ j ∈ Finset.range W,
              φ (s'.data b (g' * channels_per_group C G + c) i j) := by
    intro s s' hp φ
    rw [hp.1]
    refine Finset.sum_congr rfl fun c hc => Finset.sum_congr rfl fun i _ =>
      Finset.sum_congr rfl fun j _ => ?_
    rw [hp.2 b _ i j (by rw [hdiv c (Finset.mem_range.mp hc)]; exact hg)]
  have hH : PatchGroupNorm.globalHeight ws = PatchGroupNorm.globalHeight ws' :=
    forall2_map_sum Shard.height Shard.height (fun _ _ hp => hp.1) h
  have hsum : PatchGroupNorm.group_sum ws (channels_per_group C G) W b g'
      = PatchGroupNorm.group_sum ws' (channels_per_group C G) W b g' := by
    unfold PatchGroupNorm.group_sum all_gather
    exact forall2_map_sum _ _ (fun s s' hp => by
      unfold PatchGroupNorm.part_sum
      simpa using hagree s s' hp (fun q => q)) h
  have hE : PatchGroupNorm.E ws C G W b g' = PatchGroupNorm.E ws' C G W b g' := by
    unfold PatchGroupNorm.E
    rw [hsum, hH]
  refine ⟨hE, ?_⟩
  unfold PatchGroupNorm.var
  rw [hH, hE]
  congr 1
  unfold all_gather
  exact forall2_map_sum _ _ (fun s s' hp => by
    unfold PatchGroupNorm.part_var_sum
    exact hagree s s' hp (fun q => (q - PatchGroupNorm.E ws' C G W b g') ^ 2)) h

/-- The first run's single shard for the C6 witness: two channels, group 0
holds 5, group 1 holds 7. -/
def isoShard : Shard := ⟨1, fun _ c _ _ => if c = 0 then 5 else 7⟩

/-- The second run's single shard for the C6 witness: group 0 changed to 9,
group 1 unchanged. -/
def isoShardB : Shard := ⟨1, fun _ c _ _ => if c = 0 then 9 else 7⟩

/-- Witness for C6: modifying only group 0 leaves group 1's mean and variance
unchanged (C = 2 channels, G = 2 groups, width 1, one worker). -/
theorem group_isolation_witness :
    PatchGroupNorm.E [isoShard] 2 2 1 0 1 = PatchGroupNorm.E [isoShardB] 2 2 1 0 1
      ∧ PatchGroupNorm.var [isoShard] 2 2 1 0 1
        = PatchGroupNorm.var [isoShardB] 2 2 1 0 1 :=
  group_isolation 2 2 1 0 (by decide) [isoShard] [isoShardB]
    (List.Forall₂.cons
      ⟨rfl, fun b c i j hc => by
        have hc0 : c ≠ 0 := by simpa [channels_per_group] using hc
        simp [isoShard, isoShardB, hc0]⟩
      List.Forall₂.nil) 0 1 (by decide)

/-- The kinds of blocking collective calls a distributed forward can post. -/
inductive Collective where
  | heightGather
  | meanGather
  | varGather
deriving DecidableEq

/-- One blocking collective call: records its kind next to the gathered value. -/
def gatherEvent {α : Type} (k : Collective) (v : α) : List Collective × α :=
  ([k], v)

/-- `PatchGroupNorm.forward` with its collective calls made explicit: the same
straight-line body, with each `dist.all_gather` call site (lines 148, 158, 166)
routed through `gatherEvent`, so the first component is the rank-ordered trace
of blocking collective calls posted by one forward call of one worker. -/
def PatchGroupNorm.forwardTraced (sqrtQ : ℚ → ℚ) (weight bias : ℕ → ℚ)
    (eps : ℚ) (ws : List Shard) (C G W : ℕ) (s : Shard) :
    List Collective × (ℕ → ℕ → ℕ → ℕ → ℚ) :=
  let hg := gatherEvent Collective.heightGather (all_gather ws Shard.height)
  let height := hg.2.sum
  let cpg := channels_per_group C G
  let sg := gatherEvent Collective.meanGather
    (all_gather ws (fun t => fun b g => PatchGroupNorm.part_sum t cpg W b g))
  let Ev : ℕ → ℕ → ℚ := fun b g =>
    (sg.2.map (fun p => p b g)).sum /
      ((PatchGroupNorm.nelements cpg height W : ℕ) : ℚ)
  let vg := gatherEvent Collective.varGather
    (all_gather ws (fun t => fun b g =>
      PatchGroupNorm.part_var_sum t cpg W (Ev b g) b g))
  let varv : ℕ → ℕ → ℚ := fun b g =>
    (vg.2.map (fun p => p b g)).sum /
      ((PatchGroupNorm.nelements cpg height W : ℕ) : ℚ)
  (hg.1 ++ sg.1 ++ vg.1,
    fun b c i j =>
      (s.data b c i j - Ev b (c / cpg)) / sqrtQ (varv b (c / cpg) + eps) *
          weight c +
        bias c)

/-- `PatchAdaGroupNorm.forward` with its collective calls made explicit: the
three unconditional `dist.all_gather` call sites of lines 72, 80, 85, in
program order (the straight-line body posts them whenever it runs to
completion; the same modelling caveat as on `PatchAdaGroupNorm.forward`
applies to the reductions between them). -/
def PatchAdaGroupNorm.forwardTraced (sqrtQ : ℚ → ℚ) (scale shift : ℕ → ℕ → ℚ)
    (eps : ℚ) (ws : List Shard) (C G W : ℕ) (s : Shard) :
    List Collective × (ℕ → ℕ → ℕ → ℕ → ℚ) :=
  let hg := gatherEvent Collective.heightGather (all_gather ws Shard.height)
  let height := hg.2.sum
  let cpg := channels_per_group C G
  let sg := gatherEvent Collective.meanGather
    (all_gather ws (fun t => fun b g => PatchGroupNorm.part_sum t cpg W b g))
  let Ev : ℕ → ℕ → ℚ := fun b g =>
    (sg.2.map (fun p => p b g)).sum /
      ((PatchGroupNorm.nelements cpg height W : ℕ) : ℚ)
  let vg := gatherEvent Collective.varGather
    (all_gather ws (fun t => fun b g =>
      PatchGroupNorm.part_var_sum t cpg W (Ev b g) b g))
  let varv : ℕ → ℕ → ℚ := fun b g =>
    (vg.2.map (fun p => p b g)).sum /
      ((PatchGroupNorm.nelements cpg height W : ℕ) : ℚ)
  (hg.1 ++ sg.1 ++ vg.1,
    fun b c i j =>
      (s.data b c i j - Ev b (c / cpg)) / sqrtQ (varv b (c / cpg) + eps) *
          (1 + scale b c) +
        shift b c)

/-- The traced forward computes the same output as the untraced embedding. -/
lemma forwardTraced_output_eq (sqrtQ : ℚ → ℚ) (weight bias : ℕ → ℚ) (eps : ℚ)
    (ws : List Shard) (C G W : ℕ) (s : Shard) :
    (PatchGroupNorm.forwardTraced sqrtQ weight bias eps ws C G W s).2
      = PatchGroupNorm.forward sqrtQ weight bias eps ws C G W s := by
  funext b c i j
  simp [PatchGroupNorm.forwardTraced, gatherEvent, all_gather, List.map_map,
    Function.comp_def, PatchGroupNorm.forward, PatchGroupNorm.E,
    PatchGroupNorm.group_sum, PatchGroupNorm.var, PatchGroupNorm.globalHeight,
    PatchGroupNorm.nelements]

/-- C7 counterexample: one forward call of the distributed affine variant posts
three blocking collective calls — the height gather, the mean gather and the
variance gather — so the number of collective suspension points is not two;
evaluated at a concrete argument vector. -/
theorem two_suspension_points_refuted :
    ((PatchGroupNorm.forwardTraced (fun q => q) (fun _ => 1) (fun _ => 0) 0 []
          0 0 0 defaultShard).1).length = 3
      ∧ ¬ ((PatchGroupNorm.forwardTraced (fun q => q) (fun _ => 1) (fun _ => 0) 0
          [] 0 0 0 defaultShard).1).length = 2 :=
  ⟨rfl, by decide⟩

/-- C7 amended: each forward call of a distributed variant posts exactly three
blocking collective calls, in order the height exchange, the mean exchange and
the variance exchange (the spec's count of two omits the height exchange). -/
theorem three_suspension_points (sqrtQ : ℚ → ℚ) (weight bias : ℕ → ℚ)
    (scale shift : ℕ → ℕ → ℚ) (eps : ℚ) (ws : List Shard) (C G W : ℕ)
    (s : Shard) :
    (PatchGroupNorm.forwardTraced sqrtQ weight bias eps ws C G W s).1
        = [Collective.heightGather, Collective.meanGather, Collective.varGather]
      ∧ (PatchAdaGroupNorm.forwardTraced sqrtQ scale shift eps ws C G W s).1
        = [Collective.heightGather, Collective.meanGather, Collective.varGather] :=
  ⟨rfl, rfl⟩

/-- The normalization expression of `PatchAdaGroupNorm.forward`, line 89:
`x = (x - E) / torch.sqrt(var + self.eps)`. -/
def PatchAdaGroupNorm.normalize_expr (sqrtQ : ℚ → ℚ) (xv Ev varv eps : ℚ) : ℚ :=
  (xv - Ev) / sqrtQ (varv + eps)

/-- The normalization expression of `PatchGroupNorm.forward`, line 171:
`x = (x - E[...]) / torch.sqrt(var + self.eps)[...]`. -/
def PatchGroupNorm.normalize_expr (sqrtQ : ℚ → ℚ) (xv Ev varv eps : ℚ) : ℚ :=
  (xv - Ev) / sqrtQ (varv + eps)

/-- The placement the spec alleges for one of the code paths: eps added after
the division rather than inside the square root. -/
def epsAfterDiv_expr (sqrtQ : ℚ → ℚ) (xv Ev varv eps : ℚ) : ℚ :=
  (xv - Ev) / sqrtQ varv + eps

/-- C8 counterexample: the two near-duplicate distributed implementations place
eps identically — the embeddings of line 89 (`PatchAdaGroupNorm.forward`) and
line 171 (`PatchGroupNorm.forward`), both reading
`(x - E) / torch.sqrt(var + self.eps)`, are the very same function, refuting
the claimed difference in placement. -/
theorem eps_placement_identical :
    PatchAdaGroupNorm.normalize_expr = PatchGroupNorm.normalize_expr := rfl

/-- C8 amended: both distributed implementations add eps to the variance before
the square root (and that placement is distinguishable from the after-division
placement the spec alleges, as the concrete evaluation shows); both forwards
normalize through exactly this expression. -/
theorem eps_before_sqrt_in_both (sqrtQ : ℚ → ℚ) (xv Ev varv eps : ℚ)
    (weight bias : ℕ → ℚ) (scale shift : ℕ → ℕ → ℚ) (ws : List Shard)
    (C G W : ℕ) (s : Shard) (b c i j : ℕ) :
    PatchAdaGroupNorm.normalize_expr sqrtQ xv Ev varv eps
        = (xv - Ev) / sqrtQ (varv + eps)
      ∧ PatchGroupNorm.normalize_expr sqrtQ xv Ev varv eps
        = (xv - Ev) / sqrtQ (varv + eps)
      ∧ PatchGroupNorm.forward sqrtQ weight bias eps ws C G W s b c i j
        = PatchGroupNorm.normalize_expr sqrtQ (s.data b c i j)
            (PatchGroupNorm.E ws C G W b (c / channels_per_group C G))
            (PatchGroupNorm.var ws C G W b (c / channels_per_group C G)) eps *
            weight c + bias c
      ∧ PatchAdaGroupNorm.forward sqrtQ scale shift eps ws C G W s b c i j
        = PatchAdaGroupNorm.normalize_expr sqrtQ (s.data b c i j)
            (PatchGroupNorm.E ws C G W b (c / channels_per_group C G))
            (PatchGroupNorm.var ws C G W b (c / channels_per_group C G)) eps *
            (1 + scale b c) + shift b c
      ∧ PatchGroupNorm.normalize_expr (fun q => q) 2 0 0 1
        ≠ epsAfterDiv_expr (fun q => q) 2 0 0 1 :=
  ⟨rfl, rfl, rfl, rfl, by
    norm_num [PatchGroupNorm.normalize_expr, epsAfterDiv_expr]⟩

/-- The affine GroupNorm layer state built at construction. -/
structure GroupNormParams where
  num_groups : ℕ
  num_channels : ℕ
  eps : ℚ
  weight : ℕ → ℚ
  bias : ℕ → ℚ

/-- Modelled from the spec: `PatchGroupNorm.__init__` (lines 140-143) only
delegates to torch's `nn.GroupNorm` constructor, whose code is not under src/;
per the spec, a channel count not divisible by the group count is a
configuration error "detected at construction …; fatal, surfaced immediately,
not retried", and otherwise the affine parameters are initialized to ones
(weights) and zeros (biases). -/
def PatchGroupNorm.init (num_groups num_channels : ℕ) (eps : ℚ) :
    Except String GroupNormParams :=
  if num_channels % num_groups ≠ 0 then
    Except.error "num_channels must be divisible by num_groups"
  else
    Except.ok ⟨num_groups, num_channels, eps, fun _ => 1, fun _ => 0⟩

/-- C9: constructing the layer with num_channels = 10 and num_groups = 3 (a
channel count not divisible by the group count) fails with a configuration
error at construction time, before any forward call. -/
theorem config_error_non_divisible :
    PatchGroupNorm.init 3 10 (1 / 100000)
      = Except.error "num_channels must be divisible by num_groups" := rfl

/-- The state built by `PatchAdaGroupNorm.__init__` (lines 49-61): it stores
`num_groups` and `eps` and builds `Linear(embedding_dim, out_dim * 2)`. -/
structure AdaGNParams where
  num_groups : ℕ
  eps : ℚ
  linear_in : ℕ
  linear_out : ℕ

/-- `PatchAdaGroupNorm.__init__` (lines 49-61), returned through `Except` to
make explicit that its body contains no divisibility or sizing check and no
failure branch: it unconditionally succeeds. -/
def PatchAdaGroupNorm.init (embedding_dim out_dim num_groups : ℕ) (eps : ℚ) :
    Except String AdaGNParams :=
  Except.ok ⟨num_groups, eps, embedding_dim, out_dim * 2⟩

/-- Modelled from the spec: the body of `torch.Tensor.sum_to_size`, invoked at
line 77 as `x.sum_to_size(x.shape[0], self.num_groups)`, is not under src/.
Its documented precondition is that the requested shape be expandable to the
tensor's shape: shapes are right-aligned and every requested dimension must
equal the tensor's dimension or be 1. At this call site the request is
`[B, G]` against the 4-D local shard `[B, C, H, W]`, so `B` is aligned with
`H` and `G` with `W` (the uncovered leading dimensions are unconstrained; the
channel count `C` takes no part in the check). Per the spec's error taxonomy
(§7), a failed shape check is fatal and surfaced at the call. -/
def sum_to_size_ok (B G _C H W : ℕ) : Bool :=
  (B == H || B == 1) && (G == W || G == 1)

/-- `PatchAdaGroupNorm.forward` with the shape precondition of its first
reduction (line 77) made explicit: the forward aborts with torch's shape error
when `[B, G]` is not expandable to the local `[B, C, H, W]`, and otherwise
continues into the two-round computation (modelled, as everywhere in this
file, by the per-(batch, group) reading of the reductions). -/
def PatchAdaGroupNorm.forwardChecked (sqrtQ : ℚ → ℚ) (scale shift : ℕ → ℕ → ℚ)
    (eps : ℚ) (ws : List Shard) (B C G W : ℕ) (s : Shard) :
    Except String (ℕ → ℕ → ℕ → ℕ → ℚ) :=
  if sum_to_size_ok B G C s.height W then
    Except.ok (PatchAdaGroupNorm.forward sqrtQ scale shift eps ws C G W s)
  else
    Except.error "size [B, G] is not expandable to size [B, C, H, W]"

/-- C10 counterexample: at the concrete non-divisible configuration B = 1,
C = 10, G = 3, H = W = 1, the first reduction of `PatchAdaGroupNorm.forward`
(line 77) fails torch's expandability check — `[1, 3]` is not expandable to
`[1, 10, 1, 1]` — so the forward raises at the first call instead of accepting
the input, refuting "no configuration error is raised at construction or at
forward by this class". -/
theorem pagn_forward_rejected :
    PatchAdaGroupNorm.forwardChecked (fun q => q) (fun _ _ => 0) (fun _ _ => 0)
        (1 / 100000) [⟨1, fun _ _ _ _ => 1⟩] 1 10 3 1 ⟨1, fun _ _ _ _ => 1⟩
      = Except.error "size [B, G] is not expandable to size [B, C, H, W]" := rfl

/-- C10 amended: `PatchAdaGroupNorm`'s constructor succeeds for every
combination of embedding_dim, out_dim and num_groups — it performs no
divisibility or sizing check — and its forward computes channels_per_group by
floor division `x.shape[1] // num_groups` (so 10 channels in 3 groups gives 3);
however the first forward call can still reject the input: line 77's
`sum_to_size(B, G)` on the raw 4-D shard requires `B = H or 1` and `G = W or 1`,
a shape check that a typical input fails — and that is independent of
divisibility, rejecting a divisible channel count (C = 12, G = 3) at the same
shapes — so no check anywhere in the class is tied to divisibility. -/
theorem pagn_no_divisibility_check (embedding_dim out_dim num_groups : ℕ)
    (eps : ℚ) :
    PatchAdaGroupNorm.init embedding_dim out_dim num_groups eps
        = Except.ok ⟨num_groups, eps, embedding_dim, out_dim * 2⟩
      ∧ channels_per_group 10 3 = 3
      ∧ PatchAdaGroupNorm.forwardChecked (fun q => q) (fun _ _ => 0)
            (fun _ _ => 0) (1 / 100000) [⟨1, fun _ _ _ _ => 1⟩] 1 10 3 1
            ⟨1, fun _ _ _ _ => 1⟩
          = Except.error "size [B, G] is not expandable to size [B, C, H, W]"
      ∧ PatchAdaGroupNorm.forwardChecked (fun q => q) (fun _ _ => 0)
            (fun _ _ => 0) (1 / 100000) [⟨1, fun _ _ _ _ => 1⟩] 1 12 3 1
            ⟨1, fun _ _ _ _ => 1⟩
          = Except.error "size [B, G] is not expandable to size [B, C, H, W]" :=
  ⟨rfl, rfl, rfl, rfl⟩
